import Mathlib

/-!
Verification of the gnet event-loop core (`eventloop.go`).

The event loop is embedded shallowly: each `loop*` method of the Go source
becomes a pure Lean function over an explicit `LoopState`, with external
effects (syscalls, poller registrations, user-handler callbacks) captured in
two ways: their *inputs* are supplied by an `Oracle` record (one field per
external result the dispatched code may consume), and their *occurrence* is
recorded in an output trace of `Ev` events.  Each function returns the new
loop state, the trace of effects it performed (in program order), and its
`error` result (`Option GError`, `none` standing for Go's `nil`).
-/

namespace Gnet

/-- Bytes are modelled as natural numbers; no arithmetic is ever done on
them, they are opaque payload values. -/
abbrev Byte := Nat

/-- Go `error` values the event loop distinguishes: `ErrClosing`, the
would-block errno `EAGAIN`, and any other system error by code. -/
inductive GError where
  | closing
  | eagain
  | sys (code : Nat)
deriving DecidableEq

/-- The `Action` control directive returned by handler callbacks.  In Go
this is an integer-based enum, so values other than the four named
constants are possible; `unknown` stands for any such value. -/
inductive Action where
  | None
  | DataRead
  | Close
  | Shutdown
  | unknown (v : Nat)
deriving DecidableEq

/-- Modelled from the spec: the `ringbuffer` package is not under `src/`.
Per the spec (§2, glossary) a RingBuffer is a growable circular byte buffer
supporting append (`Write`), a zero-copy dual-segment read view
(`PreReadAll`, up to two contiguous ranges when the storage wraps), and a
read-cursor advance (`Advance`).  It is modelled by its two unread
segments; the logical content is `top ++ tail`. -/
structure RingBuffer where
  top : List Byte
  tail : List Byte
deriving DecidableEq

namespace RingBuffer

/-- Modelled from the spec: a freshly allocated, empty ring buffer. -/
def new : RingBuffer := ⟨[], []⟩

/-- The logical byte content: first segment followed by the wrapped one. -/
def contents (rb : RingBuffer) : List Byte := rb.top ++ rb.tail

/-- Modelled from the spec: number of unread bytes. -/
def Length (rb : RingBuffer) : Nat := rb.contents.length

/-- Modelled from the spec: the dual-segment read view.  The second
component is Go's `tail` slice, `nil` (here `none`) when the buffer does
not wrap. -/
def PreReadAll (rb : RingBuffer) : List Byte × Option (List Byte) :=
  (rb.top, if rb.tail = [] then Option.none else Option.some rb.tail)

/-- Modelled from the spec: advance the read cursor by `n` bytes.  When the
whole first segment is consumed the wrapped segment becomes the new
contiguous front. -/
def Advance (rb : RingBuffer) (n : Nat) : RingBuffer :=
  if n < rb.top.length then ⟨rb.top.drop n, rb.tail⟩
  else ⟨rb.tail.drop (n - rb.top.length), []⟩

/-- Modelled from the spec: append bytes at the write cursor. -/
def Write (rb : RingBuffer) (bs : List Byte) : RingBuffer :=
  if rb.tail = [] then ⟨rb.top ++ bs, []⟩ else ⟨rb.top, rb.tail ++ bs⟩

end RingBuffer

/-- An IPv4 socket address (`unix.SockaddrInet4`): four address bytes and a
port. -/
structure SockaddrInet4 where
  a0 : Byte
  a1 : Byte
  a2 : Byte
  a3 : Byte
  port : Nat
deriving DecidableEq

/-- An IPv6 socket address (`unix.SockaddrInet6`): sixteen address bytes, a
port and a zone id. -/
structure SockaddrInet6 where
  addr : List Byte
  port : Nat
  zoneId : Nat
deriving DecidableEq

/-- A raw socket address as returned by accept/recvfrom. -/
inductive Sockaddr where
  | inet4 (sa : SockaddrInet4)
  | inet6 (sa : SockaddrInet6)
deriving DecidableEq

/-- A resolved `net.Addr` as stored on a connection.  The conversion
helpers of the `netpoll` package are not under `src/`; the address is kept
symbolically, which preserves exactly the bytes the loop passes to them. -/
inductive Addr where
  | listener
  | tcpOrUnix (sa : Sockaddr)
  | udp (sa : SockaddrInet6)
deriving DecidableEq

/-- The per-connection state (`conn`).  The `id` field is a ghost
identity, assigned at accept time, used only to state per-connection trace
properties; it has no counterpart in the Go struct and no code reads it. -/
structure Conn where
  fd : Nat
  id : Nat
  sa : Sockaddr
  opened : Bool
  inBuf : RingBuffer
  outBuf : RingBuffer
  action : Action
  extra : List Byte
  localAddr : Option Addr
  remoteAddr : Option Addr
deriving DecidableEq

/-- The per-loop state (`loop`).  `connections` is the fd-keyed connection
table; `lnfd` is the listening descriptor `lp.svr.ln.fd`; `udp` is whether
`lp.svr.ln.pconn != nil`; `keepAlive` collapses the condition
`opts.TCPKeepAlive > 0` with the TCP-listener type check; `nextId` feeds
the ghost connection identities. -/
structure LoopState where
  connections : Nat → Option Conn
  lnfd : Nat
  udp : Bool
  keepAlive : Bool
  nextId : Nat

/-- Insert (or overwrite) a connection under its descriptor. -/
def LoopState.insertConn (s : LoopState) (c : Conn) : LoopState :=
  { s with connections := fun f => if f = c.fd then Option.some c else s.connections f }

/-- Remove the connection registered under `fd`. -/
def LoopState.removeConn (s : LoopState) (fd : Nat) : LoopState :=
  { s with connections := fun f => if f = fd then Option.none else s.connections f }

/-- Observable effects of a dispatch, in program order. -/
inductive Ev where
  | runJob
  | onOpened (id : Nat)
  | react (id : Nat)
  | reactUDP (c : Conn)
  | preWrite
  | onClosed (id : Nat) (err : Option GError)
  | addReadWrite (fd : Nat)
  | addWrite (fd : Nat)
  | modRead (fd : Nat)
  | pollerDelete (fd : Nat) (ok : Bool)
  | closeFd (fd : Nat)
  | sysWrite (fd : Nat) (bytes : List Byte)
  | sysRead (fd : Nat)
  | sysAccept (fd : Nat)
  | sendTo (bytes : List Byte)
  | setKeepAlive (fd : Nat)
deriving DecidableEq

/-- Result of a `unix.Accept` call. -/
inductive AcceptRes where
  | ok (nfd : Nat) (sa : Sockaddr)
  | eagain
  | fail (code : Nat)
deriving DecidableEq

/-- Result of a `unix.Write` call: bytes written, would-block, or error. -/
inductive WriteRes where
  | ok (n : Nat)
  | eagain
  | fail (code : Nat)
deriving DecidableEq

/-- The external inputs one dispatch may consume: results of syscalls,
poller operations and user-handler callbacks.  Each dispatched path reads
only the fields corresponding to the calls it actually makes. -/
structure Oracle where
  jobRes : Option GError
  acceptRes : AcceptRes
  setNonblockRes : Option GError
  addReadWriteRes : Option GError
  onOpened : List Byte × Action
  openAccepted : Nat
  readData : List Byte
  readErr : Option GError
  react : List Byte × Action
  reactAccepted : Nat
  write1 : WriteRes
  write2 : WriteRes
  deleteRes : Option GError
  onClosed : Action
  recvData : List Byte
  recvSa : Sockaddr
  recvErr : Option GError

/-- Modelled from the spec: `conn.write` / `conn.open` (`connection.go` is
not under `src/`).  Per §4.5/§6 output bytes are sent immediately when the
socket is writable and otherwise queued on the outbound buffer: if unsent
bytes are already queued the new bytes are appended behind them, else the
socket accepts `accepted` bytes at once and the remainder is queued.  The
input buffer is never touched. -/
def connWrite (c : Conn) (buf : List Byte) (accepted : Nat) : Conn × List Ev :=
  if 0 < c.outBuf.Length then
    ({ c with outBuf := c.outBuf.Write buf }, [])
  else
    let n := min accepted buf.length
    ({ c with outBuf := if n < buf.length then c.outBuf.Write (buf.drop n) else c.outBuf },
     [Ev.sysWrite c.fd (buf.take n)])

/-- Embedding of `loopCloseConn` (eventloop.go:153).  The poller
deregistration result comes from the oracle; only on success is the
connection removed from the table and the descriptor closed.  `OnClosed`
always fires with the triggering error; only a `Shutdown` return value
propagates (as `ErrClosing`). -/
def loopCloseConn (lp : LoopState) (c : Conn) (e : Option GError) (o : Oracle) :
    LoopState × List Ev × Option GError :=
  let z :=
    if o.deleteRes = Option.none then
      (lp.removeConn c.fd, [Ev.pollerDelete c.fd true, Ev.closeFd c.fd])
    else (lp, [Ev.pollerDelete c.fd false])
  let evs := z.2 ++ [Ev.onClosed c.id e]
  match o.onClosed with
  | Action.Shutdown => (z.1, evs, Option.some GError.closing)
  | _ => (z.1, evs, Option.none)

/-- Embedding of `handleAction` (eventloop.go:224). -/
def handleAction (lp : LoopState) (c : Conn) (o : Oracle) :
    LoopState × List Ev × Option GError :=
  match c.action with
  | Action.None => (lp, [], Option.none)
  | Action.Close => loopCloseConn lp c Option.none o
  | Action.Shutdown => (lp, [], Option.some GError.closing)
  | _ => (lp, [], Option.none)

/-- Embedding of `loopOpened` (eventloop.go:84): marks the connection
opened, fills addressing, fires `OnOpened`, optionally configures
keep-alive, routes initial output through the write path, registers write
interest when output is pending, and finally applies the action. -/
def loopOpened (lp : LoopState) (c : Conn) (o : Oracle) :
    LoopState × List Ev × Option GError :=
  let c1 := { c with opened := true,
                     localAddr := Option.some Addr.listener,
                     remoteAddr := Option.some (Addr.tcpOrUnix c.sa) }
  let out := o.onOpened.1
  let c2 := { c1 with action := o.onOpened.2 }
  let evKA := if lp.keepAlive then [Ev.setKeepAlive c2.fd] else []
  let w := if 0 < out.length then connWrite c2 out o.openAccepted else (c2, [])
  let evAW := if w.1.outBuf.Length ≠ 0 then [Ev.addWrite w.1.fd] else []
  let lp1 := lp.insertConn w.1
  let h := handleAction lp1 w.1 o
  (h.1, Ev.onOpened c.id :: (evKA ++ w.2 ++ evAW ++ h.2.1), h.2.2)

/-- Embedding of `loopRead` (eventloop.go:105): reads into the scratch
buffer (`o.readData` are the bytes obtained, `o.readErr` the error); zero
bytes or a non-EAGAIN error closes the connection, EAGAIN is a no-op; on
success `React` fires, output is routed through the write path, otherwise
(unless the action is `DataRead`) the received bytes are appended to the
input buffer; finally the action is applied. -/
def loopRead (lp : LoopState) (c : Conn) (o : Oracle) :
    LoopState × List Ev × Option GError :=
  if o.readData.length = 0 ∨ o.readErr ≠ Option.none then
    if o.readErr = Option.some GError.eagain then (lp, [Ev.sysRead c.fd], Option.none)
    else
      let z := loopCloseConn lp c o.readErr o
      (z.1, Ev.sysRead c.fd :: z.2.1, z.2.2)
  else
    let c1 := { c with extra := o.readData }
    let out := o.react.1
    let c2 := { c1 with action := o.react.2 }
    let w :=
      if 0 < out.length then connWrite c2 out o.reactAccepted
      else if o.react.2 ≠ Action.DataRead then
        ({ c2 with inBuf := c2.inBuf.Write c2.extra }, [])
      else (c2, [])
    let lp1 := lp.insertConn w.1
    let h := handleAction lp1 w.1 o
    (h.1, Ev.sysRead c.fd :: Ev.react c.id :: (w.2 ++ h.2.1), h.2.2)

/-- Shared tail of `loopWrite` (eventloop.go:147): after the writes, drop
write interest iff the outbound buffer is fully drained. -/
def loopWriteFinish (lp : LoopState) (c : Conn) : LoopState × List Ev × Option GError :=
  let lp1 := lp.insertConn c
  if c.outBuf.Length = 0 then (lp1, [Ev.modRead c.fd], Option.none)
  else (lp1, [], Option.none)

/-- Embedding of `loopWrite` (eventloop.go:124): `PreWrite`, then write the
first segment of the dual-segment view (EAGAIN is a benign no-op, other
errors close the connection), advance by the reported count, write the
second segment under the same rules when the first was fully written and a
second exists, then drop write interest iff drained. -/
def loopWrite (lp : LoopState) (c : Conn) (o : Oracle) :
    LoopState × List Ev × Option GError :=
  let top := c.outBuf.PreReadAll.1
  let tl := c.outBuf.PreReadAll.2
  match o.write1 with
  | WriteRes.eagain => (lp, [Ev.preWrite], Option.none)
  | WriteRes.fail code =>
      let z := loopCloseConn lp c (Option.some (GError.sys code)) o
      (z.1, Ev.preWrite :: z.2.1, z.2.2)
  | WriteRes.ok n =>
      let c1 := { c with outBuf := c.outBuf.Advance n }
      let ev1 := [Ev.preWrite, Ev.sysWrite c.fd (top.take n)]
      if top.length = n ∧ tl ≠ Option.none then
        match o.write2 with
        | WriteRes.eagain => (lp.insertConn c1, ev1, Option.none)
        | WriteRes.fail code =>
            let z := loopCloseConn (lp.insertConn c1) c1 (Option.some (GError.sys code)) o
            (z.1, ev1 ++ z.2.1, z.2.2)
        | WriteRes.ok m =>
            let c2 := { c1 with outBuf := c1.outBuf.Advance m }
            let z := loopWriteFinish lp c2
            (z.1, ev1 ++ [Ev.sysWrite c.fd ((tl.getD []).take m)] ++ z.2.1, z.2.2)
      else
        let z := loopWriteFinish lp c1
        (z.1, ev1 ++ z.2.1, z.2.2)

/-- Embedding of the IPv4 normalization in `loopUDPRead`
(eventloop.go:242-256): an IPv4 source is placed in the last four bytes of
a zero-initialized sixteen-byte IPv6 address (bytes 0..11 are set to 0),
port preserved, zone id 0; an IPv6 source is copied unchanged. -/
def normalizeUDPAddr : Sockaddr → SockaddrInet6
  | Sockaddr.inet4 sa =>
      { addr := [0, 0, 0, 0, 0, 0, 0, 0, 0, 0, 0, 0, sa.a0, sa.a1, sa.a2, sa.a3],
        port := sa.port, zoneId := 0 }
  | Sockaddr.inet6 sa => sa

/-- Embedding of `loopUDPRead` (eventloop.go:237): receive one datagram
(zero bytes or an error is a silent no-op), normalize the source address,
build a transient connection carrying the datagram and addressing, fire
`React` on it, send any reply back best-effort, and propagate only a
`Shutdown` action. -/
def loopUDPRead (lp : LoopState) (o : Oracle) :
    LoopState × List Ev × Option GError :=
  if o.recvErr ≠ Option.none ∨ o.recvData.length = 0 then (lp, [], Option.none)
  else
    let sa6 := normalizeUDPAddr o.recvSa
    let c : Conn :=
      { fd := 0, id := 0, sa := o.recvSa, opened := false,
        inBuf := RingBuffer.new.Write o.recvData, outBuf := RingBuffer.new,
        action := Action.None, extra := [],
        localAddr := Option.some Addr.listener,
        remoteAddr := Option.some (Addr.udp sa6) }
    let out := o.react.1
    let evS := if 0 < out.length then [Ev.preWrite, Ev.sendTo out] else []
    let evs := Ev.reactUDP c :: evS
    match o.react.2 with
    | Action.Shutdown => (lp, evs, Option.some GError.closing)
    | _ => (lp, evs, Option.none)

/-- Embedding of `loopAccept` (eventloop.go:54): only the listening
descriptor is acted on; a datagram listener delegates to `loopUDPRead`; a
stream listener accepts (EAGAIN is a no-op, other errors propagate), sets
the new descriptor non-blocking, builds a fresh connection and registers it
read-write, adding it to the table only when registration succeeds. -/
def loopAccept (lp : LoopState) (fd : Nat) (o : Oracle) :
    LoopState × List Ev × Option GError :=
  if fd = lp.lnfd then
    if lp.udp then loopUDPRead lp o
    else
      match o.acceptRes with
      | AcceptRes.eagain => (lp, [Ev.sysAccept fd], Option.none)
      | AcceptRes.fail code => (lp, [Ev.sysAccept fd], Option.some (GError.sys code))
      | AcceptRes.ok nfd sa =>
        match o.setNonblockRes with
        | Option.some e => (lp, [Ev.sysAccept fd], Option.some e)
        | Option.none =>
          let c : Conn :=
            { fd := nfd, id := lp.nextId, sa := sa, opened := false,
              inBuf := RingBuffer.new, outBuf := RingBuffer.new,
              action := Action.None, extra := [],
              localAddr := Option.none, remoteAddr := Option.none }
          match o.addReadWriteRes with
          | Option.none =>
              ({ lp.insertConn c with nextId := lp.nextId + 1 },
               [Ev.sysAccept fd, Ev.addReadWrite nfd], Option.none)
          | Option.some e => (lp, [Ev.sysAccept fd], Option.some e)
  else (lp, [], Option.none)

/-- Embedding of the dispatch closure installed by `loopRun`
(eventloop.go:35-51): `fd = 0` runs the injected job; a known connection is
routed to `loopOpened` when not yet opened, to `loopWrite` when outbound
bytes are pending, and to `loopRead` otherwise; an unknown descriptor goes
to `loopAccept`. -/
def dispatch (lp : LoopState) (fd : Nat) (o : Oracle) :
    LoopState × List Ev × Option GError :=
  if fd = 0 then (lp, [Ev.runJob], o.jobRes)
  else
    match lp.connections fd with
    | Option.some c =>
      if c.opened = false then loopOpened lp c o
      else if 0 < c.outBuf.Length then loopWrite lp c o
      else loopRead lp c o
    | Option.none => loopAccept lp fd o

/-- A run of the polling loop: dispatch each readiness event in turn,
accumulating the trace, and stop as soon as a dispatch returns a non-nil
error (as `Polling` does). -/
def runSteps : LoopState → List (Nat × Oracle) → LoopState × List Ev
  | s, [] => (s, [])
  | s, (fd, o) :: rest =>
    let z := dispatch s fd o
    match z.2.2 with
    | Option.some _ => (z.1, z.2.1)
    | Option.none =>
      let w := runSteps z.1 rest
      (w.1, z.2.1 ++ w.2)

/-! ### Basic lemmas about the embedding -/

lemma insertConn_lookup_self (s : LoopState) (c : Conn) :
    (s.insertConn c).connections c.fd = Option.some c := by
  simp [LoopState.insertConn]

lemma insertConn_lookup_ne (s : LoopState) (c : Conn) (f : Nat) (h : f ≠ c.fd) :
    (s.insertConn c).connections f = s.connections f := by
  simp [LoopState.insertConn, h]

lemma connWrite_fields (c : Conn) (buf : List Byte) (a : Nat) :
    (connWrite c buf a).1.fd = c.fd ∧ (connWrite c buf a).1.id = c.id ∧
    (connWrite c buf a).1.opened = c.opened ∧ (connWrite c buf a).1.inBuf = c.inBuf ∧
    (connWrite c buf a).1.action = c.action := by
  unfold connWrite
  split <;> simp

lemma connWrite_evs (c : Conn) (buf : List Byte) (a : Nat) :
    ∀ e ∈ (connWrite c buf a).2, ∃ bs, e = Ev.sysWrite c.fd bs := by
  unfold connWrite
  split
  · simp
  · intro e he
    simp only [List.mem_singleton] at he
    exact ⟨_, he⟩

lemma handleAction_not_close (lp : LoopState) (c : Conn) (o : Oracle)
    (h : c.action ≠ Action.Close) :
    handleAction lp c o =
      (lp, [],
       if c.action = Action.Shutdown then Option.some GError.closing else Option.none) := by
  rcases hc : c.action with _ | _ | _ | _ | v <;> simp [handleAction, hc] <;> simp [hc] at h

/-! ### Concrete instances used by witnesses -/

/-- A default oracle for concrete evaluations. -/
def oracle0 : Oracle :=
  { jobRes := Option.none, acceptRes := AcceptRes.eagain,
    setNonblockRes := Option.none, addReadWriteRes := Option.none,
    onOpened := ([], Action.None), openAccepted := 0,
    readData := [], readErr := Option.none,
    react := ([], Action.None), reactAccepted := 0,
    write1 := WriteRes.eagain, write2 := WriteRes.eagain,
    deleteRes := Option.none, onClosed := Action.None,
    recvData := [], recvSa := Sockaddr.inet4 ⟨0, 0, 0, 0, 0⟩,
    recvErr := Option.none }

/-- A loop state with an empty connection table. -/
def loop0 : LoopState :=
  { connections := fun _ => Option.none, lnfd := 1, udp := false,
    keepAlive := false, nextId := 0 }

/-- A sample connection with a pending `None` action. -/
def conn0 : Conn :=
  { fd := 4, id := 0, sa := Sockaddr.inet4 ⟨1, 2, 3, 4, 5⟩, opened := false,
    inBuf := RingBuffer.new, outBuf := RingBuffer.new,
    action := Action.None, extra := [], localAddr := Option.none,
    remoteAddr := Option.none }

/-! ### Claim theorems -/

/-- C2: the dispatch function installed by `loopRun` classifies every
readiness event exactly as: `fd = 0` runs the injected job and returns its
result; a known connection is routed to `loopOpened` when not yet opened,
to `loopWrite` when the outbound buffer is non-empty, and to `loopRead`
otherwise; an unknown descriptor is routed to `loopAccept`. -/
theorem dispatch_classification (lp : LoopState) (fd : Nat) (o : Oracle) :
    (fd = 0 → dispatch lp fd o = (lp, [Ev.runJob], o.jobRes)) ∧
    (∀ c, fd ≠ 0 → lp.connections fd = Option.some c → c.opened = false →
      dispatch lp fd o = loopOpened lp c o) ∧
    (∀ c, fd ≠ 0 → lp.connections fd = Option.some c → c.opened = true →
      0 < c.outBuf.Length → dispatch lp fd o = loopWrite lp c o) ∧
    (∀ c, fd ≠ 0 → lp.connections fd = Option.some c → c.opened = true →
      c.outBuf.Length = 0 → dispatch lp fd o = loopRead lp c o) ∧
    (fd ≠ 0 → lp.connections fd = Option.none → dispatch lp fd o = loopAccept lp fd o) := by
  refine ⟨fun h => by simp [dispatch, h], ?_, ?_, ?_, ?_⟩
  · intro c h0 hc hop
    simp [dispatch, h0, hc, hop]
  · intro c h0 hc hop hlen
    simp [dispatch, h0, hc, hop, hlen]
  · intro c h0 hc hop hlen
    simp [dispatch, h0, hc, hop, hlen]
  · intro h0 hc
    simp [dispatch, h0, hc]

/-- Witness for C2: a job injection at `fd = 0` on a concrete state. -/
theorem dispatch_classification_witness :
    dispatch loop0 0 oracle0 = (loop0, [Ev.runJob], Option.none) :=
  (dispatch_classification loop0 0 oracle0).1 rfl

/-- C7: `handleAction` returns nil with no further effect for `None`,
invokes `loopCloseConn` with a nil error for `Close`, returns the shutdown
error for `Shutdown`, and treats every other action value (including
`DataRead`) exactly like `None`. -/
theorem handleAction_spec (lp : LoopState) (c : Conn) (o : Oracle) :
    (c.action = Action.None → handleAction lp c o = (lp, [], Option.none)) ∧
    (c.action = Action.Close → handleAction lp c o = loopCloseConn lp c Option.none o) ∧
    (c.action = Action.Shutdown →
      handleAction lp c o = (lp, [], Option.some GError.closing)) ∧
    (c.action = Action.DataRead → handleAction lp c o = (lp, [], Option.none)) ∧
    (∀ v, c.action = Action.unknown v → handleAction lp c o = (lp, [], Option.none)) := by
  refine ⟨fun h => by simp [handleAction, h], fun h => by simp [handleAction, h],
    fun h => by simp [handleAction, h], fun h => by simp [handleAction, h],
    fun v h => by simp [handleAction, h]⟩

/-- Witness for C7: a pending `None` action on a concrete connection. -/
theorem handleAction_spec_witness :
    handleAction loop0 conn0 oracle0 = (loop0, [], Option.none) :=
  (handleAction_spec loop0 conn0 oracle0).1 rfl

/-- C10: a descriptor that is neither 0, nor a key of the connection
table, nor the listening descriptor dispatches to a no-op: the state is
returned unchanged, no effect event is emitted, and the result is nil. -/
theorem dispatch_unknown_fd_frame (lp : LoopState) (fd : Nat) (o : Oracle)
    (h0 : fd ≠ 0) (hc : lp.connections fd = Option.none) (hl : fd ≠ lp.lnfd) :
    dispatch lp fd o = (lp, [], Option.none) := by
  simp [dispatch, h0, hc, loopAccept, hl]

/-- Witness for C10: descriptor 2 on a loop listening on descriptor 1 with
an empty connection table. -/
theorem dispatch_unknown_fd_frame_witness :
    dispatch loop0 2 oracle0 = (loop0, [], Option.none) :=
  dispatch_unknown_fd_frame loop0 2 oracle0 (by decide) rfl (by decide)

/-- C6: `loopCloseConn` removes the connection and closes the descriptor
iff poller deregistration succeeded; on failure the table and descriptor
are untouched; `OnClosed` always fires with the triggering error; the
shutdown error is returned iff `OnClosed` returns `Shutdown`. -/
theorem loopCloseConn_spec (lp : LoopState) (c : Conn) (e : Option GError) (o : Oracle) :
    (o.deleteRes = Option.none →
      (loopCloseConn lp c e o).1.connections c.fd = Option.none ∧
      Ev.closeFd c.fd ∈ (loopCloseConn lp c e o).2.1 ∧
      (∀ f, f ≠ c.fd → (loopCloseConn lp c e o).1.connections f = lp.connections f)) ∧
    (o.deleteRes ≠ Option.none →
      (loopCloseConn lp c e o).1.connections = lp.connections ∧
      Ev.closeFd c.fd ∉ (loopCloseConn lp c e o).2.1) ∧
    Ev.onClosed c.id e ∈ (loopCloseConn lp c e o).2.1 ∧
    ((loopCloseConn lp c e o).2.2 =
      if o.onClosed = Action.Shutdown then Option.some GError.closing else Option.none) := by
  rcases hq : o.onClosed with _ | _ | _ | _ | v <;>
    by_cases hd : o.deleteRes = Option.none <;>
      (simp [loopCloseConn, LoopState.removeConn, hq, hd]
       try (intro f hf; simp [hf]))

/-- Witness for C6: closing a concrete connection with successful poller
deregistration. -/
theorem loopCloseConn_spec_witness :
    (loopCloseConn loop0 conn0 Option.none oracle0).1.connections conn0.fd =
      Option.none ∧
    Ev.onClosed conn0.id Option.none ∈ (loopCloseConn loop0 conn0 Option.none oracle0).2.1 :=
  ⟨((loopCloseConn_spec loop0 conn0 Option.none oracle0).1 rfl).1,
   (loopCloseConn_spec loop0 conn0 Option.none oracle0).2.2.1⟩

/-- Shape of a successful `loopRead` (n > 0 bytes, no error): `React`
fires, the connection's `extra`/`action` fields are updated, the received
bytes are buffered exactly when no output was produced and the action is
not `DataRead`, and the updated connection is written back before the
action is applied. -/
lemma loopRead_success_shape (lp : LoopState) (c : Conn) (o : Oracle)
    (hn : o.readData.length ≠ 0) (he : o.readErr = Option.none) :
    ∃ c' wev,
      c'.fd = c.fd ∧ c'.id = c.id ∧ c'.opened = c.opened ∧
      c'.action = o.react.2 ∧
      c'.inBuf = (if o.react.1 = [] ∧ o.react.2 ≠ Action.DataRead
                  then c.inBuf.Write o.readData else c.inBuf) ∧
      (∀ e ∈ wev, ∃ bs, e = Ev.sysWrite c.fd bs) ∧
      loopRead lp c o =
        ((handleAction (lp.insertConn c') c' o).1,
         Ev.sysRead c.fd :: Ev.react c.id ::
           (wev ++ (handleAction (lp.insertConn c') c' o).2.1),
         (handleAction (lp.insertConn c') c' o).2.2) := by
  have hcond : ¬(o.readData.length = 0 ∨ o.readErr ≠ Option.none) := by
    simp [hn, he]
  by_cases hout : 0 < o.react.1.length
  · refine ⟨(connWrite { c with extra := o.readData, action := o.react.2 }
        o.react.1 o.reactAccepted).1,
      (connWrite { c with extra := o.readData, action := o.react.2 }
        o.react.1 o.reactAccepted).2, ?_, ?_, ?_, ?_, ?_, ?_, ?_⟩
    · exact (connWrite_fields _ _ _).1
    · exact (connWrite_fields _ _ _).2.1
    · exact (connWrite_fields _ _ _).2.2.1
    · exact (connWrite_fields _ _ _).2.2.2.2
    · have hne : ¬(o.react.1 = [] ∧ o.react.2 ≠ Action.DataRead) := by
        intro hco
        rw [hco.1] at hout
        simp at hout
      rw [if_neg hne]
      exact (connWrite_fields _ _ _).2.2.2.1
    · exact connWrite_evs _ _ _
    · unfold loopRead
      rw [if_neg hcond]
      simp only []
      rw [if_pos hout]
  · have hout0 : o.react.1 = [] := List.length_eq_zero.mp (by omega)
    by_cases hdr : o.react.2 = Action.DataRead
    · refine ⟨{ c with extra := o.readData, action := o.react.2 }, [], rfl, rfl, rfl, rfl, ?_, by simp, ?_⟩
      · rw [if_neg (by simp [hdr])]
      · unfold loopRead
        rw [if_neg hcond]
        simp only []
        rw [if_neg hout, if_neg (by simp [hdr])]
    · refine ⟨{ c with extra := o.readData, action := o.react.2, inBuf := c.inBuf.Write o.readData }, [], rfl, rfl, rfl, rfl, ?_, by simp, ?_⟩
      · rw [if_pos ⟨hout0, hdr⟩]
      · unfold loopRead
        rw [if_neg hcond]
        simp only []
        rw [if_neg hout, if_pos hdr]

/-- C3: in a successful `loopRead`, the bytes just read are appended to
the connection's input RingBuffer iff `React` returned no output and an
action other than `DataRead`; in every other case the input buffer is left
unchanged.  (Stated for actions other than `Close` so that the updated
connection is still observable in the table afterward; the buffering step
itself precedes the action handling in the code.) -/
theorem loopRead_inBuf_spec (lp : LoopState) (c : Conn) (o : Oracle)
    (h1 : o.readData.length ≠ 0) (h2 : o.readErr = Option.none)
    (h3 : o.react.2 ≠ Action.Close) :
    ∃ c', (loopRead lp c o).1.connections c.fd = Option.some c' ∧
      c'.inBuf = (if o.react.1 = [] ∧ o.react.2 ≠ Action.DataRead
                  then c.inBuf.Write o.readData else c.inBuf) := by
  obtain ⟨c', wev, hfd, hid, hop, hact, hin, hwev, heq⟩ :=
    loopRead_success_shape lp c o h1 h2
  refine ⟨c', ?_, hin⟩
  rw [heq]
  have hnc : c'.action ≠ Action.Close := by rw [hact]; exact h3
  rw [handleAction_not_close _ _ _ hnc]
  rw [← hfd]
  exact insertConn_lookup_self _ _

/-- Witness for C3: a two-byte read with no output and a `None` action on
a concrete connection; the bytes land in the input buffer. -/
theorem loopRead_inBuf_spec_witness :
    ∃ c', (loopRead loop0 conn0
        { oracle0 with readData := [10, 11] }).1.connections conn0.fd =
        Option.some c' ∧
      c'.inBuf = conn0.inBuf.Write [10, 11] :=
  have h := loopRead_inBuf_spec loop0 conn0 { oracle0 with readData := [10, 11] }
    (by decide) rfl (by decide)
  by
    obtain ⟨c', hc, hin⟩ := h
    exact ⟨c', hc, by rw [hin]; rfl⟩

/-- C8: in `loopRead`, a zero-byte read or a non-would-block error closes
the connection via `loopCloseConn` with that error; a would-block result
returns nil without state change, close, or handler callback; and a
successful read never closes the connection from the read itself (here:
whenever the returned action is not `Close`, no close callback fires and
the connection remains in the table). -/
theorem loopRead_error_spec (lp : LoopState) (c : Conn) (o : Oracle) :
    (o.readErr = Option.some GError.eagain →
      loopRead lp c o = (lp, [Ev.sysRead c.fd], Option.none)) ∧
    ((o.readData.length = 0 ∨ o.readErr ≠ Option.none) →
      o.readErr ≠ Option.some GError.eagain →
      loopRead lp c o =
        ((loopCloseConn lp c o.readErr o).1,
         Ev.sysRead c.fd :: (loopCloseConn lp c o.readErr o).2.1,
         (loopCloseConn lp c o.readErr o).2.2)) ∧
    (o.readData.length ≠ 0 → o.readErr = Option.none →
      o.react.2 ≠ Action.Close →
      (∀ i e2, Ev.onClosed i e2 ∉ (loopRead lp c o).2.1) ∧
      (loopRead lp c o).1.connections c.fd ≠ Option.none) := by
  refine ⟨?_, ?_, ?_⟩
  · intro h
    have : o.readData.length = 0 ∨ o.readErr ≠ Option.none := by
      right
      rw [h]
      simp
    simp [loopRead, this, h]
  · intro h1 h2
    unfold loopRead
    rw [if_pos h1, if_neg h2]
  · intro hn he hcl
    obtain ⟨c', wev, hfd, hid, hop, hact, hin, hwev, heq⟩ :=
      loopRead_success_shape lp c o hn he
    have hnc : c'.action ≠ Action.Close := by rw [hact]; exact hcl
    rw [heq, handleAction_not_close _ _ _ hnc]
    constructor
    · intro i e2 hmem
      simp only [List.mem_cons, List.mem_append, List.append_nil] at hmem
      rcases hmem with h | h | h
      · exact Ev.noConfusion h
      · exact Ev.noConfusion h
      · obtain ⟨bs, hbs⟩ := hwev _ h
        exact Ev.noConfusion hbs
    · rw [← hfd, insertConn_lookup_self]
      simp

/-- Witness for C8: a would-block read on a concrete connection is a
no-op. -/
theorem loopRead_error_spec_witness :
    loopRead loop0 conn0 { oracle0 with readErr := Option.some GError.eagain } =
      (loop0, [Ev.sysRead conn0.fd], Option.none) :=
  (loopRead_error_spec loop0 conn0
    { oracle0 with readErr := Option.some GError.eagain }).1 rfl

/-- Extract the remote address a UDP `React` invocation observed. -/
def evRemoteAddr : Ev → Option Addr
  | Ev.reactUDP c => c.remoteAddr
  | _ => Option.none

/-- The address bytes claimed by the spec sentence under test: the
IPv4-mapped IPv6 form, whose first 10 bytes are zero, whose bytes 10 and
11 are 0xff, and whose last 4 bytes are the IPv4 address.  This follows
the claim's words, for comparison with what the code builds. -/
def claimedV4MappedBytes (a0 a1 a2 a3 : Byte) : List Byte :=
  [0, 0, 0, 0, 0, 0, 0, 0, 0, 0, 255, 255, a0, a1, a2, a3]

/-- A concrete UDP datagram oracle: one byte from 1.2.3.4:7. -/
def udpOracle : Oracle :=
  { oracle0 with recvData := [9], recvSa := Sockaddr.inet4 ⟨1, 2, 3, 4, 7⟩ }

/-- C5 counterexample: for a datagram from IPv4 source 1.2.3.4 port 7,
`loopUDPRead` hands the handler the address bytes `::1.2.3.4` (first 12
bytes zero), which differ at bytes 10 and 11 from the IPv4-mapped IPv6
form the claim asserts. -/
theorem loopUDPRead_addr_counterexample :
    (loopUDPRead loop0 udpOracle).2.1.map evRemoteAddr =
      [Option.some (Addr.udp
        { addr := [0, 0, 0, 0, 0, 0, 0, 0, 0, 0, 0, 0, 1, 2, 3, 4],
          port := 7, zoneId := 0 })] ∧
    [0, 0, 0, 0, 0, 0, 0, 0, 0, 0, 0, 0, 1, 2, 3, 4] ≠ claimedV4MappedBytes 1 2 3 4 := by
  constructor
  · decide
  · decide

/-- C5 (amended): for every datagram received from an IPv4 source,
`loopUDPRead` passes the handler a peer address whose 16 address bytes are
the IPv4-compatible IPv6 embedding — first 12 bytes zero, last 4 bytes the
IPv4 address — with the source port preserved and zone id 0. -/
theorem loopUDPRead_v4_compat_addr (lp : LoopState) (o : Oracle)
    (sa4 : SockaddrInet4) (hs : o.recvSa = Sockaddr.inet4 sa4)
    (he : o.recvErr = Option.none) (hd : o.recvData.length ≠ 0) :
    ∃ c2, Ev.reactUDP c2 ∈ (loopUDPRead lp o).2.1 ∧
      c2.remoteAddr = Option.some (Addr.udp
        { addr := [0, 0, 0, 0, 0, 0, 0, 0, 0, 0, 0, 0, sa4.a0, sa4.a1, sa4.a2, sa4.a3],
          port := sa4.port, zoneId := 0 }) := by
  have hcond : ¬(o.recvErr ≠ Option.none ∨ o.recvData.length = 0) := by
    simp [he, hd]
  refine ⟨{ fd := 0, id := 0, sa := o.recvSa, opened := false,
            inBuf := RingBuffer.new.Write o.recvData, outBuf := RingBuffer.new,
            action := Action.None, extra := [],
            localAddr := Option.some Addr.listener,
            remoteAddr := Option.some (Addr.udp (normalizeUDPAddr o.recvSa)) }, ?_, ?_⟩
  · unfold loopUDPRead
    rw [if_neg hcond]
    simp only []
    rcases hr : o.react.2 with _ | _ | _ | _ | v <;> simp [hr]
  · rw [hs]
    rfl

/-- Witness for the amended C5 at the concrete datagram 1.2.3.4:7. -/
theorem loopUDPRead_v4_compat_addr_witness :
    ∃ c2, Ev.reactUDP c2 ∈ (loopUDPRead loop0 udpOracle).2.1 ∧
      c2.remoteAddr = Option.some (Addr.udp
        { addr := [0, 0, 0, 0, 0, 0, 0, 0, 0, 0, 0, 0, 1, 2, 3, 4],
          port := 7, zoneId := 0 }) :=
  loopUDPRead_v4_compat_addr loop0 udpOracle ⟨1, 2, 3, 4, 7⟩ rfl rfl (by decide)

/-! ### RingBuffer lemmas -/

lemma RingBuffer.preReadAll_fst (rb : RingBuffer) : rb.PreReadAll.1 = rb.top := rfl

lemma RingBuffer.preReadAll_snd (rb : RingBuffer) :
    rb.PreReadAll.2 = if rb.tail = [] then Option.none else Option.some rb.tail := rfl

lemma RingBuffer.preReadAll_snd_ne (rb : RingBuffer) :
    rb.PreReadAll.2 ≠ Option.none ↔ rb.tail ≠ [] := by
  rw [RingBuffer.preReadAll_snd]
  by_cases h : rb.tail = [] <;> simp [h]

lemma RingBuffer.contents_advance (rb : RingBuffer) (n : Nat) :
    (rb.Advance n).contents = rb.contents.drop n := by
  unfold RingBuffer.Advance
  split
  · rename_i h
    show rb.top.drop n ++ rb.tail = (rb.top ++ rb.tail).drop n
    rw [List.drop_append_eq_append_drop, Nat.sub_eq_zero_of_le (le_of_lt h),
        List.drop_zero]
  · rename_i h
    push_neg at h
    show rb.tail.drop (n - rb.top.length) ++ [] = (rb.top ++ rb.tail).drop n
    rw [List.drop_append_eq_append_drop, List.drop_eq_nil_of_le h, List.nil_append,
        List.append_nil]

lemma RingBuffer.length_advance (rb : RingBuffer) (n : Nat) :
    (rb.Advance n).Length = rb.Length - n := by
  unfold RingBuffer.Length
  rw [RingBuffer.contents_advance, List.length_drop]

lemma take_drop_append (l1 l2 : List Byte) (n : Nat) (h : n ≤ l1.length) :
    l1.take n ++ (l1 ++ l2).drop n = l1 ++ l2 := by
  rw [List.drop_append_eq_append_drop, Nat.sub_eq_zero_of_le h, List.drop_zero,
      ← List.append_assoc, List.take_append_drop]

/-- Bytes actually handed to the write syscall, in order, over a trace. -/
def writtenOf : List Ev → List Byte
  | [] => []
  | Ev.sysWrite _ bs :: rest => bs ++ writtenOf rest
  | _ :: rest => writtenOf rest

lemma loopWriteFinish_spec (lp : LoopState) (c : Conn) :
    (loopWriteFinish lp c).1.connections c.fd = Option.some c ∧
    (Ev.modRead c.fd ∈ (loopWriteFinish lp c).2.1 ↔ c.outBuf.Length = 0) ∧
    (loopWriteFinish lp c).2.2 = Option.none ∧
    writtenOf (loopWriteFinish lp c).2.1 = [] := by
  unfold loopWriteFinish
  by_cases h : c.outBuf.Length = 0 <;>
    simp [h, insertConn_lookup_self, writtenOf]

/-- C9: at the end of a `loopWrite` call that did not close the connection
(no hard write error), `ModRead` is issued for the connection's descriptor
iff the outbound buffer's length is zero at that point; while unsent bytes
remain, write interest is retained.  The hypotheses state that the oracle
is a valid socket (a write never reports more bytes than it was given) and
that the buffer is non-empty and well-formed, as is the case whenever the
dispatch routes to `loopWrite`. -/
theorem loopWrite_modRead_spec (lp : LoopState) (c : Conn) (o : Oracle)
    (hl : lp.connections c.fd = Option.some c)
    (hne : c.outBuf.Length ≠ 0)
    (h1 : ∀ code, o.write1 ≠ WriteRes.fail code)
    (h2 : ∀ code, o.write2 ≠ WriteRes.fail code)
    (hn : ∀ n, o.write1 = WriteRes.ok n → n ≤ c.outBuf.top.length) :
    ∃ c', (loopWrite lp c o).1.connections c.fd = Option.some c' ∧
      (Ev.modRead c.fd ∈ (loopWrite lp c o).2.1 ↔ c'.outBuf.Length = 0) := by
  have hlen : c.outBuf.Length = c.outBuf.top.length + c.outBuf.tail.length := by
    unfold RingBuffer.Length RingBuffer.contents
    rw [List.length_append]
  rcases hw1 : o.write1 with n | _ | code
  · have hn' : n ≤ c.outBuf.top.length := hn n hw1
    unfold loopWrite
    rw [hw1]
    simp only []
    by_cases hsec : c.outBuf.PreReadAll.1.length = n ∧ c.outBuf.PreReadAll.2 ≠ Option.none
    · rw [if_pos hsec]
      have htop : c.outBuf.top.length = n := hsec.1
      have htl : c.outBuf.tail ≠ [] := (RingBuffer.preReadAll_snd_ne _).mp hsec.2
      have htlpos : 0 < c.outBuf.tail.length := List.length_pos.mpr htl
      rcases hw2 : o.write2 with m | _ | code2
      · simp only []
        unfold loopWriteFinish
        dsimp only
        by_cases hz : ((c.outBuf.Advance n).Advance m).Length = 0
        · rw [if_pos hz]
          refine ⟨_, insertConn_lookup_self lp _, ?_⟩
          simp [hz]
        · rw [if_neg hz]
          refine ⟨_, insertConn_lookup_self lp _, ?_⟩
          simp [hz]
      · simp only []
        refine ⟨_, insertConn_lookup_self lp _, ?_⟩
        have hz : (c.outBuf.Advance n).Length ≠ 0 := by
          rw [RingBuffer.length_advance]
          omega
        simp [hz]
      · exact absurd hw2 (h2 code2)
    · rw [if_neg hsec]
      unfold loopWriteFinish
      dsimp only
      by_cases hz : (c.outBuf.Advance n).Length = 0
      · rw [if_pos hz]
        refine ⟨_, insertConn_lookup_self lp _, ?_⟩
        simp [hz]
      · rw [if_neg hz]
        refine ⟨_, insertConn_lookup_self lp _, ?_⟩
        simp [hz]
  · refine ⟨c, ?_, ?_⟩
    · unfold loopWrite
      rw [hw1]
      exact hl
    · unfold loopWrite
      rw [hw1]
      simp [hne]
  · exact absurd hw1 (h1 code)

/-- Witness for C9: a connection with three queued bytes written in full
in one call; the poller is switched back to read-only interest. -/
theorem loopWrite_modRead_spec_witness :
    ∃ c', (loopWrite (loop0.insertConn { conn0 with opened := true, outBuf := ⟨[7, 8, 9], []⟩ })
        { conn0 with opened := true, outBuf := ⟨[7, 8, 9], []⟩ }
        { oracle0 with write1 := WriteRes.ok 3 }).1.connections conn0.fd = Option.some c' ∧
      (Ev.modRead conn0.fd ∈ (loopWrite (loop0.insertConn { conn0 with opened := true, outBuf := ⟨[7, 8, 9], []⟩ })
        { conn0 with opened := true, outBuf := ⟨[7, 8, 9], []⟩ }
        { oracle0 with write1 := WriteRes.ok 3 }).2.1 ↔ c'.outBuf.Length = 0) :=
  loopWrite_modRead_spec _ _ _
    (insertConn_lookup_self _ _) (by decide)
    (by intro code h; exact WriteRes.noConfusion h)
    (by intro code h; exact WriteRes.noConfusion h)
    (by intro n h; injection h with he; subst he; decide)

/-- C4: `loopWrite` preserves the queued byte stream without loss,
duplication or reordering: the bytes handed to the write syscall followed
by the bytes still queued afterwards are exactly the bytes that were
queued before, in order; a would-block result leaves the buffer untouched
and returns success; the call returns success in every non-error case; and
the second segment is never attempted unless the first was written in
full (when the first write is partial, only its own bytes are sent).
Hypotheses: the connection is in the table and the oracle is a valid
socket (a write never reports more bytes than the segment it was given). -/
theorem loopWrite_no_loss (lp : LoopState) (c : Conn) (o : Oracle)
    (hl : lp.connections c.fd = Option.some c)
    (h1 : ∀ code, o.write1 ≠ WriteRes.fail code)
    (h2 : ∀ code, o.write2 ≠ WriteRes.fail code)
    (hn : ∀ n, o.write1 = WriteRes.ok n → n ≤ c.outBuf.top.length) :
    ∃ c', (loopWrite lp c o).1.connections c.fd = Option.some c' ∧
      writtenOf (loopWrite lp c o).2.1 ++ c'.outBuf.contents = c.outBuf.contents ∧
      (loopWrite lp c o).2.2 = Option.none ∧
      (o.write1 = WriteRes.eagain → c'.outBuf = c.outBuf) ∧
      (∀ k, o.write1 = WriteRes.ok k → k ≠ c.outBuf.top.length →
        writtenOf (loopWrite lp c o).2.1 = c.outBuf.top.take k) := by
  rcases hw1 : o.write1 with n | _ | code
  · have hn' : n ≤ c.outBuf.top.length := hn n hw1
    unfold loopWrite
    rw [hw1]
    simp only []
    by_cases hsec : c.outBuf.PreReadAll.1.length = n ∧ c.outBuf.PreReadAll.2 ≠ Option.none
    · rw [if_pos hsec]
      have htop : c.outBuf.top.length = n := hsec.1
      have htl : c.outBuf.tail ≠ [] := (RingBuffer.preReadAll_snd_ne _).mp hsec.2
      have hgd : c.outBuf.PreReadAll.2 = Option.some c.outBuf.tail := by
        rw [RingBuffer.preReadAll_snd, if_neg htl]
      have hdropn : c.outBuf.contents.drop n = c.outBuf.tail := by
        unfold RingBuffer.contents
        rw [List.drop_append_eq_append_drop, ← htop, List.drop_length, Nat.sub_self,
            List.drop_zero, List.nil_append]
      rcases hw2 : o.write2 with m | _ | code2
      · simp only []
        unfold loopWriteFinish
        dsimp only
        by_cases hz : ((c.outBuf.Advance n).Advance m).Length = 0
        · rw [if_pos hz]
          refine ⟨_, insertConn_lookup_self lp _, ?_, rfl, ?_, ?_⟩
          · simp only [writtenOf, List.cons_append, List.nil_append, List.append_nil,
              RingBuffer.preReadAll_fst, hgd, Option.getD_some,
              RingBuffer.contents_advance]
            rw [hdropn, List.append_assoc, List.take_append_drop, ← htop, List.take_length]
            rfl
          · intro h
            exact WriteRes.noConfusion h
          · intro k h hk
            injection h with he
            subst he
            exact absurd htop.symm hk
        · rw [if_neg hz]
          refine ⟨_, insertConn_lookup_self lp _, ?_, rfl, ?_, ?_⟩
          · simp only [writtenOf, List.cons_append, List.nil_append, List.append_nil,
              RingBuffer.preReadAll_fst, hgd, Option.getD_some,
              RingBuffer.contents_advance]
            rw [hdropn, List.append_assoc, List.take_append_drop, ← htop, List.take_length]
            rfl
          · intro h
            exact WriteRes.noConfusion h
          · intro k h hk
            injection h with he
            subst he
            exact absurd htop.symm hk
      · simp only []
        refine ⟨_, insertConn_lookup_self lp _, ?_, ?_, ?_, ?_⟩
        · simp only [writtenOf, List.cons_append, List.nil_append, List.append_nil,
            RingBuffer.preReadAll_fst, RingBuffer.contents_advance]
          rw [hdropn, ← htop, List.take_length]
          rfl
        · trivial
        · intro h
          exact WriteRes.noConfusion h
        · intro k h hk
          have hnk : n = k := by
            cases h
            rfl
          subst hnk
          exact absurd htop.symm hk
      · exact absurd hw2 (h2 code2)
    · rw [if_neg hsec]
      unfold loopWriteFinish
      dsimp only
      by_cases hz : (c.outBuf.Advance n).Length = 0
      · rw [if_pos hz]
        refine ⟨_, insertConn_lookup_self lp _, ?_, rfl, ?_, ?_⟩
        · simp only [writtenOf, List.cons_append, List.nil_append, List.append_nil,
            RingBuffer.preReadAll_fst, RingBuffer.contents_advance]
          exact take_drop_append _ _ _ hn'
        · intro h
          exact WriteRes.noConfusion h
        · intro k h hk
          injection h with he
          subst he
          simp [writtenOf, RingBuffer.preReadAll_fst]
      · rw [if_neg hz]
        refine ⟨_, insertConn_lookup_self lp _, ?_, rfl, ?_, ?_⟩
        · simp only [writtenOf, List.cons_append, List.nil_append, List.append_nil,
            RingBuffer.preReadAll_fst, RingBuffer.contents_advance]
          exact take_drop_append _ _ _ hn'
        · intro h
          exact WriteRes.noConfusion h
        · intro k h hk
          injection h with he
          subst he
          simp [writtenOf, RingBuffer.preReadAll_fst]
  · refine ⟨c, ?_, ?_, ?_, ?_, ?_⟩
    · unfold loopWrite
      rw [hw1]
      exact hl
    · unfold loopWrite
      rw [hw1]
      simp [writtenOf]
    · unfold loopWrite
      rw [hw1]
    · intro h
      rfl
    · intro k h hk
      exact WriteRes.noConfusion h
  · exact absurd hw1 (h1 code)

/-- Witness for C4: five queued bytes split across both segments, first
segment written in full, second partially; the bytes delivered plus the
bytes still queued equal the original queue. -/
theorem loopWrite_no_loss_witness :
    ∃ c', (loopWrite (loop0.insertConn { conn0 with opened := true, outBuf := ⟨[1, 2, 3], [4, 5]⟩ })
        { conn0 with opened := true, outBuf := ⟨[1, 2, 3], [4, 5]⟩ }
        { oracle0 with write1 := WriteRes.ok 3, write2 := WriteRes.ok 1 }).1.connections conn0.fd =
        Option.some c' ∧
      writtenOf (loopWrite (loop0.insertConn { conn0 with opened := true, outBuf := ⟨[1, 2, 3], [4, 5]⟩ })
        { conn0 with opened := true, outBuf := ⟨[1, 2, 3], [4, 5]⟩ }
        { oracle0 with write1 := WriteRes.ok 3, write2 := WriteRes.ok 1 }).2.1 ++
        c'.outBuf.contents = ({ conn0 with opened := true, outBuf := ⟨[1, 2, 3], [4, 5]⟩ } : Conn).outBuf.contents :=
  have h := loopWrite_no_loss
    (loop0.insertConn { conn0 with opened := true, outBuf := ⟨[1, 2, 3], [4, 5]⟩ })
    { conn0 with opened := true, outBuf := ⟨[1, 2, 3], [4, 5]⟩ }
    { oracle0 with write1 := WriteRes.ok 3, write2 := WriteRes.ok 1 }
    (insertConn_lookup_self _ _)
    (by intro code h; exact WriteRes.noConfusion h)
    (by intro code h; exact WriteRes.noConfusion h)
    (by intro n h; injection h with he; subst he; decide)
  by
    obtain ⟨c', hc, hcons, _, _, _⟩ := h
    exact ⟨c', hc, hcons⟩

/-! ### Trace invariant for the open-once property (C1) -/

lemma split_append {α : Type} (a : α) :
    ∀ (tr evs t1 t2 : List α), tr ++ evs = t1 ++ a :: t2 →
      (∃ u, tr = t1 ++ a :: u) ∨ (∃ u, t1 = tr ++ u ∧ evs = u ++ a :: t2) := by
  intro tr evs t1
  induction t1 generalizing tr with
  | nil =>
    intro t2 h
    cases tr with
    | nil => exact Or.inr ⟨[], rfl, h⟩
    | cons x tr' =>
      simp only [List.cons_append, List.nil_append] at h
      injection h with h1 h2
      subst h1
      exact Or.inl ⟨tr', rfl⟩
  | cons b t1' ih =>
    intro t2 h
    cases tr with
    | nil => exact Or.inr ⟨b :: t1', rfl, h⟩
    | cons x tr' =>
      simp only [List.cons_append] at h
      injection h with h1 h2
      subst h1
      rcases ih tr' t2 h2 with ⟨u, hu⟩ | ⟨u, hu1, hu2⟩
      · exact Or.inl ⟨u, by rw [hu]; rfl⟩
      · exact Or.inr ⟨u, by rw [hu1, List.cons_append], hu2⟩

/-- The loop invariant tying the connection table to the trace of handler
callbacks so far: connection descriptors match their table keys, ghost ids
are below the allocation counter and unique, a connection's `opened` flag
records exactly whether its `OnOpened` already fired, ids not yet
allocated never appear, `OnOpened` fires at most once per id, and every
TCP `React` is preceded by the same connection's `OnOpened`. -/
structure Inv (s : LoopState) (tr : List Ev) : Prop where
  keyFd : ∀ f c, s.connections f = Option.some c → c.fd = f
  idLt : ∀ f c, s.connections f = Option.some c → c.id < s.nextId
  idInj : ∀ f g c d, s.connections f = Option.some c →
    s.connections g = Option.some d → c.id = d.id → f = g
  openedIff : ∀ f c, s.connections f = Option.some c →
    (c.opened = true ↔ Ev.onOpened c.id ∈ tr)
  freshNoOpen : ∀ i, s.nextId ≤ i → Ev.onOpened i ∉ tr
  onceOpen : ∀ i, tr.count (Ev.onOpened i) ≤ 1
  reactOrdered : ∀ i t1 t2, tr = t1 ++ Ev.react i :: t2 → Ev.onOpened i ∈ t1

/-- How one dispatched procedure may change the table: only the entry at
`fd` is touched, the allocation counter is unchanged, and whatever
connection ends up at `fd` keeps the given ghost id, descriptor, and
opened flag. -/
def ConnUpd (s s' : LoopState) (fd id : Nat) (op : Bool) : Prop :=
  s'.nextId = s.nextId ∧
  (∀ f, f ≠ fd → s'.connections f = s.connections f) ∧
  (∀ c', s'.connections fd = Option.some c' → c'.id = id ∧ c'.fd = fd ∧ c'.opened = op)

lemma ConnUpd.trans {s t u : LoopState} {fd id : Nat} {op : Bool}
    (h1 : ConnUpd s t fd id op) (h2 : ConnUpd t u fd id op) :
    ConnUpd s u fd id op :=
  ⟨h2.1.trans h1.1, fun f hf => (h2.2.1 f hf).trans (h1.2.1 f hf), h2.2.2⟩

/-- Invariant preservation for a step that touches only an existing
connection's entry, keeps its opened flag, emits no `OnOpened`, and emits
`React` only for connections already opened before the step. -/
lemma Inv.connStep {s s' : LoopState} {tr evs : List Ev} {fd : Nat} {c : Conn}
    (h : Inv s tr) (hc : s.connections fd = Option.some c)
    (hupd : ConnUpd s s' fd c.id c.opened)
    (hop : ∀ i, Ev.onOpened i ∉ evs)
    (hrc : ∀ i, Ev.react i ∈ evs → Ev.onOpened i ∈ tr) :
    Inv s' (tr ++ evs) := by
  obtain ⟨hnext, hne, hat⟩ := hupd
  constructor
  · intro f d hd
    by_cases hf : f = fd
    · subst hf
      exact (hat d hd).2.1
    · rw [hne f hf] at hd
      exact h.keyFd f d hd
  · intro f d hd
    rw [hnext]
    by_cases hf : f = fd
    · subst hf
      rw [(hat d hd).1]
      exact h.idLt _ c hc
    · rw [hne f hf] at hd
      exact h.idLt f d hd
  · intro f g d e hdf heg hide
    by_cases hf : f = fd <;> by_cases hg : g = fd
    · rw [hf, hg]
    · subst hf
      rw [hne g hg] at heg
      rw [(hat d hdf).1] at hide
      exact (hg (h.idInj _ g c e hc heg hide).symm).elim
    · subst hg
      rw [hne f hf] at hdf
      rw [(hat e heg).1] at hide
      exact (hf (h.idInj f _ d c hdf hc hide)).elim
    · rw [hne f hf] at hdf
      rw [hne g hg] at heg
      exact h.idInj f g d e hdf heg hide
  · intro f d hd
    rw [List.mem_append]
    by_cases hf : f = fd
    · subst hf
      obtain ⟨hid, _, hopd⟩ := hat d hd
      rw [hid, hopd]
      have hiff := h.openedIff _ c hc
      constructor
      · intro ho
        exact Or.inl (hiff.mp ho)
      · rintro (hh | hh)
        · exact hiff.mpr hh
        · exact (hop _ hh).elim
    · rw [hne f hf] at hd
      have hiff := h.openedIff f d hd
      constructor
      · intro ho
        exact Or.inl (hiff.mp ho)
      · rintro (hh | hh)
        · exact hiff.mpr hh
        · exact (hop _ hh).elim
  · intro i hi him
    rw [hnext] at hi
    rw [List.mem_append] at him
    rcases him with hh | hh
    · exact h.freshNoOpen i hi hh
    · exact hop i hh
  · intro i
    rw [List.count_append, List.count_eq_zero.mpr (hop i)]
    simpa using h.onceOpen i
  · intro i t1 t2 hsplit
    rcases split_append _ tr evs t1 t2 hsplit with ⟨u, hu⟩ | ⟨u, hu1, hu2⟩
    · exact h.reactOrdered i t1 u hu
    · have hmem : Ev.react i ∈ evs := by
        rw [hu2]
        exact List.mem_append_right u (List.mem_cons_self _ _)
      rw [hu1]
      exact List.mem_append_left u (hrc i hmem)

/-- Invariant preservation for `loopOpened`: the step emits exactly one
`OnOpened` for the connection (which was not yet opened), no other
`OnOpened`, no `React`, and flips the connection's flag to true. -/
lemma Inv.openStep {s s' : LoopState} {tr evs : List Ev} {fd : Nat} {c : Conn}
    (h : Inv s tr) (hc : s.connections fd = Option.some c)
    (hopf : c.opened = false)
    (hupd : ConnUpd s s' fd c.id true)
    (hcnt : evs.count (Ev.onOpened c.id) = 1)
    (hop : ∀ i, i ≠ c.id → Ev.onOpened i ∉ evs)
    (hrc : ∀ i, Ev.react i ∉ evs) :
    Inv s' (tr ++ evs) := by
  obtain ⟨hnext, hne, hat⟩ := hupd
  have hmem : Ev.onOpened c.id ∈ evs := by
    have : 0 < evs.count (Ev.onOpened c.id) := by omega
    exact List.count_pos_iff.mp this
  have hnotin : Ev.onOpened c.id ∉ tr := by
    intro hh
    have := (h.openedIff _ c hc).mpr hh
    rw [hopf] at this
    exact Bool.noConfusion this
  constructor
  · intro f d hd
    by_cases hf : f = fd
    · subst hf
      exact (hat d hd).2.1
    · rw [hne f hf] at hd
      exact h.keyFd f d hd
  · intro f d hd
    rw [hnext]
    by_cases hf : f = fd
    · subst hf
      rw [(hat d hd).1]
      exact h.idLt _ c hc
    · rw [hne f hf] at hd
      exact h.idLt f d hd
  · intro f g d e hdf heg hide
    by_cases hf : f = fd <;> by_cases hg : g = fd
    · rw [hf, hg]
    · subst hf
      rw [hne g hg] at heg
      rw [(hat d hdf).1] at hide
      exact (hg (h.idInj _ g c e hc heg hide).symm).elim
    · subst hg
      rw [hne f hf] at hdf
      rw [(hat e heg).1] at hide
      exact (hf (h.idInj f _ d c hdf hc hide)).elim
    · rw [hne f hf] at hdf
      rw [hne g hg] at heg
      exact h.idInj f g d e hdf heg hide
  · intro f d hd
    rw [List.mem_append]
    by_cases hf : f = fd
    · subst hf
      obtain ⟨hid, _, hopd⟩ := hat d hd
      rw [hid, hopd]
      constructor
      · intro _
        exact Or.inr hmem
      · intro _
        rfl
    · rw [hne f hf] at hd
      have hiff := h.openedIff f d hd
      constructor
      · intro ho
        exact Or.inl (hiff.mp ho)
      · rintro (hh | hh)
        · exact hiff.mpr hh
        · by_cases hdc : d.id = c.id
          · exact (hf (h.idInj f _ d c hd hc hdc)).elim
          · exact (hop d.id hdc hh).elim
  · intro i hi him
    rw [hnext] at hi
    rw [List.mem_append] at him
    rcases him with hh | hh
    · exact h.freshNoOpen i (by omega) hh
    · by_cases hic : i = c.id
      · subst hic
        have := h.idLt _ c hc
        omega
      · exact hop i hic hh
  · intro i
    rw [List.count_append]
    by_cases hic : i = c.id
    · subst hic
      rw [List.count_eq_zero.mpr hnotin, hcnt]
    · rw [List.count_eq_zero.mpr (hop i hic)]
      simpa using h.onceOpen i
  · intro i t1 t2 hsplit
    rcases split_append _ tr evs t1 t2 hsplit with ⟨u, hu⟩ | ⟨u, hu1, hu2⟩
    · exact h.reactOrdered i t1 u hu
    · have : Ev.react i ∈ evs := by
        rw [hu2]
        exact List.mem_append_right u (List.mem_cons_self _ _)
      exact (hrc i this).elim

/-- Invariant preservation for a successful accept: a fresh connection
with the next ghost id, not yet opened, enters the table, and the step
emits neither `OnOpened` nor `React`. -/
lemma Inv.acceptStep {s s' : LoopState} {tr evs : List Ev} {nfd : Nat} {cnew : Conn}
    (h : Inv s tr)
    (hnext : s'.nextId = s.nextId + 1)
    (hne : ∀ f, f ≠ nfd → s'.connections f = s.connections f)
    (hat : s'.connections nfd = Option.some cnew)
    (hfd : cnew.fd = nfd) (hid : cnew.id = s.nextId) (hopn : cnew.opened = false)
    (hop : ∀ i, Ev.onOpened i ∉ evs) (hrc : ∀ i, Ev.react i ∉ evs) :
    Inv s' (tr ++ evs) := by
  constructor
  · intro f d hd
    by_cases hf : f = nfd
    · subst hf
      rw [hat] at hd
      injection hd with hd
      rw [← hd]
      exact hfd
    · rw [hne f hf] at hd
      exact h.keyFd f d hd
  · intro f d hd
    rw [hnext]
    by_cases hf : f = nfd
    · subst hf
      rw [hat] at hd
      injection hd with hd
      rw [← hd, hid]
      omega
    · rw [hne f hf] at hd
      have := h.idLt f d hd
      omega
  · intro f g d e hdf heg hide
    by_cases hf : f = nfd <;> by_cases hg : g = nfd
    · rw [hf, hg]
    · subst hf
      rw [hat] at hdf
      injection hdf with hdf
      rw [hne g hg] at heg
      have := h.idLt g e heg
      rw [← hdf, hid] at hide
      omega
    · subst hg
      rw [hat] at heg
      injection heg with heg
      rw [hne f hf] at hdf
      have := h.idLt f d hdf
      rw [← heg, hid] at hide
      omega
    · rw [hne f hf] at hdf
      rw [hne g hg] at heg
      exact h.idInj f g d e hdf heg hide
  · intro f d hd
    rw [List.mem_append]
    by_cases hf : f = nfd
    · subst hf
      rw [hat] at hd
      injection hd with hd
      rw [← hd, hopn, hid]
      constructor
      · intro hh
        exact Bool.noConfusion hh
      · rintro (hh | hh)
        · exact (h.freshNoOpen s.nextId (le_refl _) hh).elim
        · exact (hop _ hh).elim
    · rw [hne f hf] at hd
      have hiff := h.openedIff f d hd
      constructor
      · intro ho
        exact Or.inl (hiff.mp ho)
      · rintro (hh | hh)
        · exact hiff.mpr hh
        · exact (hop _ hh).elim
  · intro i hi him
    rw [hnext] at hi
    rw [List.mem_append] at him
    rcases him with hh | hh
    · exact h.freshNoOpen i (by omega) hh
    · exact hop i hh
  · intro i
    rw [List.count_append, List.count_eq_zero.mpr (hop i)]
    simpa using h.onceOpen i
  · intro i t1 t2 hsplit
    rcases split_append _ tr evs t1 t2 hsplit with ⟨u, hu⟩ | ⟨u, hu1, hu2⟩
    · exact h.reactOrdered i t1 u hu
    · have : Ev.react i ∈ evs := by
        rw [hu2]
        exact List.mem_append_right u (List.mem_cons_self _ _)
      exact (hrc i this).elim

/-- Invariant preservation for a step that leaves the state unchanged and
emits neither `OnOpened` nor `React`. -/
lemma Inv.quietExt {s : LoopState} {tr evs : List Ev} (h : Inv s tr)
    (hop : ∀ i, Ev.onOpened i ∉ evs) (hrc : ∀ i, Ev.react i ∉ evs) :
    Inv s (tr ++ evs) := by
  constructor
  · exact h.keyFd
  · exact h.idLt
  · exact h.idInj
  · intro f d hd
    rw [List.mem_append]
    have hiff := h.openedIff f d hd
    constructor
    · intro ho
      exact Or.inl (hiff.mp ho)
    · rintro (hh | hh)
      · exact hiff.mpr hh
      · exact (hop _ hh).elim
  · intro i hi him
    rw [List.mem_append] at him
    rcases him with hh | hh
    · exact h.freshNoOpen i hi hh
    · exact hop i hh
  · intro i
    rw [List.count_append, List.count_eq_zero.mpr (hop i)]
    simpa using h.onceOpen i
  · intro i t1 t2 hsplit
    rcases split_append _ tr evs t1 t2 hsplit with ⟨u, hu⟩ | ⟨u, hu1, hu2⟩
    · exact h.reactOrdered i t1 u hu
    · have : Ev.react i ∈ evs := by
        rw [hu2]
        exact List.mem_append_right u (List.mem_cons_self _ _)
      exact (hrc i this).elim

/-! ### Per-procedure state and event classification lemmas -/

lemma loopCloseConn_state (lp : LoopState) (c : Conn) (e : Option GError) (o : Oracle) :
    (loopCloseConn lp c e o).1 =
      if o.deleteRes = Option.none then lp.removeConn c.fd else lp := by
  unfold loopCloseConn
  rcases o.onClosed <;> by_cases hd : o.deleteRes = Option.none <;> simp [hd]

lemma loopCloseConn_evs2 (lp : LoopState) (c : Conn) (e : Option GError) (o : Oracle) :
    (loopCloseConn lp c e o).2.1 =
      (if o.deleteRes = Option.none
       then [Ev.pollerDelete c.fd true, Ev.closeFd c.fd]
       else [Ev.pollerDelete c.fd false]) ++ [Ev.onClosed c.id e] := by
  unfold loopCloseConn
  rcases o.onClosed <;> by_cases hd : o.deleteRes = Option.none <;> simp [hd]

lemma loopCloseConn_upd (lp : LoopState) (c : Conn) (e : Option GError) (o : Oracle)
    (op : Bool)
    (hl : ∀ c', lp.connections c.fd = Option.some c' →
      c'.id = c.id ∧ c'.fd = c.fd ∧ c'.opened = op) :
    ConnUpd lp (loopCloseConn lp c e o).1 c.fd c.id op ∧
    (∀ i, Ev.onOpened i ∉ (loopCloseConn lp c e o).2.1) ∧
    (∀ i, Ev.react i ∉ (loopCloseConn lp c e o).2.1) := by
  refine ⟨?_, ?_, ?_⟩
  · rw [loopCloseConn_state]
    by_cases hd : o.deleteRes = Option.none
    · rw [if_pos hd]
      refine ⟨rfl, ?_, ?_⟩
      · intro f hf
        simp [LoopState.removeConn, hf]
      · intro c' hc'
        simp [LoopState.removeConn] at hc'
    · rw [if_neg hd]
      exact ⟨rfl, fun f _ => rfl, hl⟩
  · intro i
    rw [loopCloseConn_evs2]
    by_cases hd : o.deleteRes = Option.none <;> simp [hd]
  · intro i
    rw [loopCloseConn_evs2]
    by_cases hd : o.deleteRes = Option.none <;> simp [hd]

lemma handleAction_cases (lp : LoopState) (c : Conn) (o : Oracle) :
    ((handleAction lp c o).1 = lp ∧ (handleAction lp c o).2.1 = []) ∨
    handleAction lp c o = loopCloseConn lp c Option.none o := by
  rcases hc : c.action with _ | _ | _ | _ | v
  · exact Or.inl ⟨by simp [handleAction, hc], by simp [handleAction, hc]⟩
  · exact Or.inl ⟨by simp [handleAction, hc], by simp [handleAction, hc]⟩
  · exact Or.inr (by simp [handleAction, hc])
  · exact Or.inl ⟨by simp [handleAction, hc], by simp [handleAction, hc]⟩
  · exact Or.inl ⟨by simp [handleAction, hc], by simp [handleAction, hc]⟩

lemma handleAction_upd (lp : LoopState) (c : Conn) (o : Oracle) (op : Bool)
    (hl : ∀ c', lp.connections c.fd = Option.some c' →
      c'.id = c.id ∧ c'.fd = c.fd ∧ c'.opened = op) :
    ConnUpd lp (handleAction lp c o).1 c.fd c.id op ∧
    (∀ i, Ev.onOpened i ∉ (handleAction lp c o).2.1) ∧
    (∀ i, Ev.react i ∉ (handleAction lp c o).2.1) := by
  rcases handleAction_cases lp c o with ⟨h1, h2⟩ | heq
  · rw [h1, h2]
    exact ⟨⟨rfl, fun f _ => rfl, hl⟩, by simp, by simp⟩
  · rw [heq]
    exact loopCloseConn_upd lp c Option.none o op hl

lemma insertConn_connUpd (lp : LoopState) (c' : Conn) (fd id : Nat) (op : Bool)
    (hfd : c'.fd = fd) (hid : c'.id = id) (hop : c'.opened = op) :
    ConnUpd lp (lp.insertConn c') fd id op := by
  refine ⟨rfl, ?_, ?_⟩
  · intro f hf
    exact insertConn_lookup_ne lp c' f (by rw [hfd]; exact hf)
  · intro d hd
    rw [← hfd, insertConn_lookup_self] at hd
    injection hd with hd
    rw [← hd]
    exact ⟨hid, hfd, hop⟩

lemma loopWriteFinish_upd (lp : LoopState) (c2 : Conn) :
    (loopWriteFinish lp c2).1 = lp.insertConn c2 ∧
    (∀ i, Ev.onOpened i ∉ (loopWriteFinish lp c2).2.1) ∧
    (∀ i, Ev.react i ∉ (loopWriteFinish lp c2).2.1) := by
  unfold loopWriteFinish
  by_cases hz : c2.outBuf.Length = 0 <;> simp [hz]

lemma loopWrite_upd (lp : LoopState) (c : Conn) (o : Oracle)
    (hl : ∀ c', lp.connections c.fd = Option.some c' →
      c'.id = c.id ∧ c'.fd = c.fd ∧ c'.opened = c.opened) :
    ConnUpd lp (loopWrite lp c o).1 c.fd c.id c.opened ∧
    (∀ i, Ev.onOpened i ∉ (loopWrite lp c o).2.1) ∧
    (∀ i, Ev.react i ∉ (loopWrite lp c o).2.1) := by
  unfold loopWrite
  rcases o.write1 with n | _ | code
  · simp only []
    by_cases hsec : c.outBuf.PreReadAll.1.length = n ∧ c.outBuf.PreReadAll.2 ≠ Option.none
    · rw [if_pos hsec]
      rcases o.write2 with m | _ | code2
      · simp only []
        obtain ⟨hf1, hf2, hf3⟩ :=
          loopWriteFinish_upd lp
            { c with outBuf := (c.outBuf.Advance n).Advance m }
        refine ⟨?_, ?_, ?_⟩
        · rw [hf1]
          exact insertConn_connUpd lp _ c.fd c.id c.opened rfl rfl rfl
        · intro i hm2
          simp only [List.cons_append, List.mem_cons, List.mem_append] at hm2
          rcases hm2 with h | h | h
          · exact Ev.noConfusion h
          · exact Ev.noConfusion h
          · rcases h with h | h
            · simp at h
            · exact hf2 i h
        · intro i hm2
          simp only [List.cons_append, List.mem_cons, List.mem_append] at hm2
          rcases hm2 with h | h | h
          · exact Ev.noConfusion h
          · exact Ev.noConfusion h
          · rcases h with h | h
            · simp at h
            · exact hf3 i h
      · simp only []
        refine ⟨insertConn_connUpd lp _ c.fd c.id c.opened rfl rfl rfl, ?_, ?_⟩ <;>
          intro i <;> simp
      · simp only []
        obtain ⟨hu, he1, he2⟩ :=
          loopCloseConn_upd (lp.insertConn { c with outBuf := c.outBuf.Advance n })
            { c with outBuf := c.outBuf.Advance n }
            (Option.some (GError.sys code2)) o c.opened
            (by
              intro c' hc'
              rw [insertConn_lookup_self] at hc'
              injection hc' with hc'
              rw [← hc']
              exact ⟨rfl, rfl, rfl⟩)
        refine ⟨?_, ?_, ?_⟩
        · exact ConnUpd.trans
            (insertConn_connUpd lp { c with outBuf := c.outBuf.Advance n }
              c.fd c.id c.opened rfl rfl rfl) hu
        · intro i hm2
          simp only [List.cons_append, List.mem_cons, List.mem_append] at hm2
          rcases hm2 with h | h | h
          · exact Ev.noConfusion h
          · exact Ev.noConfusion h
          · rcases h with h | h
            · simp at h
            · exact he1 i h
        · intro i hm2
          simp only [List.cons_append, List.mem_cons, List.mem_append] at hm2
          rcases hm2 with h | h | h
          · exact Ev.noConfusion h
          · exact Ev.noConfusion h
          · rcases h with h | h
            · simp at h
            · exact he2 i h
    · rw [if_neg hsec]
      obtain ⟨hf1, hf2, hf3⟩ :=
        loopWriteFinish_upd lp { c with outBuf := c.outBuf.Advance n }
      refine ⟨?_, ?_, ?_⟩
      · rw [hf1]
        exact insertConn_connUpd lp _ c.fd c.id c.opened rfl rfl rfl
      · intro i hm2
        simp only [List.cons_append, List.mem_cons, List.mem_append] at hm2
        rcases hm2 with h | h | h
        · exact Ev.noConfusion h
        · exact Ev.noConfusion h
        · rcases h with h | h
          · simp at h
          · exact hf2 i h
      · intro i hm2
        simp only [List.cons_append, List.mem_cons, List.mem_append] at hm2
        rcases hm2 with h | h | h
        · exact Ev.noConfusion h
        · exact Ev.noConfusion h
        · rcases h with h | h
          · simp at h
          · exact hf3 i h
  · exact ⟨⟨rfl, fun f _ => rfl, hl⟩, by intro i; simp, by intro i; simp⟩
  · obtain ⟨hu, he1, he2⟩ :=
      loopCloseConn_upd lp c (Option.some (GError.sys code)) o c.opened hl
    refine ⟨hu, ?_, ?_⟩ <;>
      intro i hm2 <;>
      simp only [List.mem_cons] at hm2 <;>
      rcases hm2 with h | h
    · exact Ev.noConfusion h
    · exact he1 i h
    · exact Ev.noConfusion h
    · exact he2 i h

/-- The connection value as updated by the opening prologue of
`loopOpened`: flag set, addressing filled in, pending action recorded. -/
def openedConn (c : Conn) (a : Action) : Conn :=
  { c with opened := true,
           localAddr := Option.some Addr.listener,
           remoteAddr := Option.some (Addr.tcpOrUnix c.sa),
           action := a }

lemma loopOpened_shape (lp : LoopState) (c : Conn) (o : Oracle) :
    ∃ c1 ka wv aw,
      c1.fd = c.fd ∧ c1.id = c.id ∧ c1.opened = true ∧
      (∀ i, Ev.onOpened i ∉ ka ++ wv ++ aw) ∧
      (∀ i, Ev.react i ∉ ka ++ wv ++ aw) ∧
      loopOpened lp c o =
        ((handleAction (lp.insertConn c1) c1 o).1,
         Ev.onOpened c.id ::
           (ka ++ wv ++ aw ++ (handleAction (lp.insertConn c1) c1 o).2.1),
         (handleAction (lp.insertConn c1) c1 o).2.2) := by
  by_cases hout : 0 < o.onOpened.1.length
  · refine ⟨(connWrite (openedConn c o.onOpened.2) o.onOpened.1 o.openAccepted).1,
      (if lp.keepAlive then [Ev.setKeepAlive c.fd] else []),
      (connWrite (openedConn c o.onOpened.2) o.onOpened.1 o.openAccepted).2,
      (if (connWrite (openedConn c o.onOpened.2) o.onOpened.1
            o.openAccepted).1.outBuf.Length ≠ 0
       then [Ev.addWrite (connWrite (openedConn c o.onOpened.2) o.onOpened.1
            o.openAccepted).1.fd]
       else []),
      ?_, ?_, ?_, ?_, ?_, ?_⟩
    · exact (connWrite_fields _ _ _).1
    · exact (connWrite_fields _ _ _).2.1
    · exact (connWrite_fields _ _ _).2.2.1
    · intro i hm
      simp only [List.mem_append] at hm
      rcases hm with (hm | hm) | hm
      · by_cases hka : lp.keepAlive
        · rw [if_pos hka] at hm
          simp only [List.mem_singleton] at hm
          exact Ev.noConfusion hm
        · rw [if_neg hka] at hm
          simp at hm
      · obtain ⟨bs, hbs⟩ := connWrite_evs _ _ _ _ hm
        exact Ev.noConfusion hbs
      · by_cases haw : (connWrite (openedConn c o.onOpened.2) o.onOpened.1
            o.openAccepted).1.outBuf.Length ≠ 0
        · rw [if_pos haw] at hm
          simp only [List.mem_singleton] at hm
          exact Ev.noConfusion hm
        · rw [if_neg haw] at hm
          simp at hm
    · intro i hm
      simp only [List.mem_append] at hm
      rcases hm with (hm | hm) | hm
      · by_cases hka : lp.keepAlive
        · rw [if_pos hka] at hm
          simp only [List.mem_singleton] at hm
          exact Ev.noConfusion hm
        · rw [if_neg hka] at hm
          simp at hm
      · obtain ⟨bs, hbs⟩ := connWrite_evs _ _ _ _ hm
        exact Ev.noConfusion hbs
      · by_cases haw : (connWrite (openedConn c o.onOpened.2) o.onOpened.1
            o.openAccepted).1.outBuf.Length ≠ 0
        · rw [if_pos haw] at hm
          simp only [List.mem_singleton] at hm
          exact Ev.noConfusion hm
        · rw [if_neg haw] at hm
          simp at hm
    · unfold loopOpened
      simp only []
      rw [if_pos hout]
      rfl
  · refine ⟨openedConn c o.onOpened.2,
      (if lp.keepAlive then [Ev.setKeepAlive c.fd] else []),
      [],
      (if (openedConn c o.onOpened.2).outBuf.Length ≠ 0
       then [Ev.addWrite c.fd]
       else []),
      rfl, rfl, rfl, ?_, ?_, ?_⟩
    · intro i hm
      simp only [List.mem_append] at hm
      rcases hm with (hm | hm) | hm
      · by_cases hka : lp.keepAlive
        · rw [if_pos hka] at hm
          simp only [List.mem_singleton] at hm
          exact Ev.noConfusion hm
        · rw [if_neg hka] at hm
          simp at hm
      · simp at hm
      · by_cases haw : (openedConn c o.onOpened.2).outBuf.Length ≠ 0
        · rw [if_pos haw] at hm
          simp only [List.mem_singleton] at hm
          exact Ev.noConfusion hm
        · rw [if_neg haw] at hm
          simp at hm
    · intro i hm
      simp only [List.mem_append] at hm
      rcases hm with (hm | hm) | hm
      · by_cases hka : lp.keepAlive
        · rw [if_pos hka] at hm
          simp only [List.mem_singleton] at hm
          exact Ev.noConfusion hm
        · rw [if_neg hka] at hm
          simp at hm
      · simp at hm
      · by_cases haw : (openedConn c o.onOpened.2).outBuf.Length ≠ 0
        · rw [if_pos haw] at hm
          simp only [List.mem_singleton] at hm
          exact Ev.noConfusion hm
        · rw [if_neg haw] at hm
          simp at hm
    · unfold loopOpened
      simp only []
      rw [if_neg hout]
      rfl

lemma loopRead_eagain_eq (lp : LoopState) (c : Conn) (o : Oracle)
    (h : o.readErr = Option.some GError.eagain) :
    loopRead lp c o = (lp, [Ev.sysRead c.fd], Option.none) := by
  have hcond : o.readData.length = 0 ∨ o.readErr ≠ Option.none := by
    rw [h]
    right
    simp
  unfold loopRead
  rw [if_pos hcond, if_pos h]

lemma loopRead_err_eq (lp : LoopState) (c : Conn) (o : Oracle)
    (h1 : o.readData.length = 0 ∨ o.readErr ≠ Option.none)
    (h2 : o.readErr ≠ Option.some GError.eagain) :
    loopRead lp c o =
      ((loopCloseConn lp c o.readErr o).1,
       Ev.sysRead c.fd :: (loopCloseConn lp c o.readErr o).2.1,
       (loopCloseConn lp c o.readErr o).2.2) := by
  unfold loopRead
  rw [if_pos h1, if_neg h2]

lemma loopAccept_shape (lp : LoopState) (fd : Nat) (o : Oracle) :
    (∀ i, Ev.onOpened i ∉ (loopAccept lp fd o).2.1) ∧
    (∀ i, Ev.react i ∉ (loopAccept lp fd o).2.1) ∧
    ((loopAccept lp fd o).1 = lp ∨
      ∃ nfd sa,
        (loopAccept lp fd o).1 =
          { lp.insertConn
              { fd := nfd, id := lp.nextId, sa := sa, opened := false,
                inBuf := RingBuffer.new, outBuf := RingBuffer.new,
                action := Action.None, extra := [], localAddr := Option.none,
                remoteAddr := Option.none } with nextId := lp.nextId + 1 }) := by
  unfold loopAccept
  by_cases hln : fd = lp.lnfd
  · rw [if_pos hln]
    by_cases hudp : lp.udp
    · rw [if_pos hudp]
      unfold loopUDPRead
      by_cases hrecv : o.recvErr ≠ Option.none ∨ o.recvData.length = 0
      · rw [if_pos hrecv]
        exact ⟨by simp, by simp, Or.inl rfl⟩
      · rw [if_neg hrecv]
        simp only []
        rcases o.react.2 with _ | _ | _ | _ | v <;>
          (refine ⟨?_, ?_, Or.inl rfl⟩ <;>
            intro i hm <;>
            (by_cases hout : 0 < o.react.1.length
             · rw [if_pos hout] at hm
               simp only [List.mem_cons] at hm
               rcases hm with h | h | h
               · exact Ev.noConfusion h
               · exact Ev.noConfusion h
               · simp at h
             · rw [if_neg hout] at hm
               simp only [List.mem_cons] at hm
               rcases hm with h | h
               · exact Ev.noConfusion h
               · simp at h))
    · rw [if_neg hudp]
      rcases o.acceptRes with ⟨nfd, sa⟩ | _ | code
      · simp only []
        rcases o.setNonblockRes with _ | e
        · simp only []
          rcases o.addReadWriteRes with _ | e2
          · exact ⟨by simp, by simp, Or.inr ⟨nfd, sa, rfl⟩⟩
          · exact ⟨by simp, by simp, Or.inl rfl⟩
        · exact ⟨by simp, by simp, Or.inl rfl⟩
      · exact ⟨by simp, by simp, Or.inl rfl⟩
      · exact ⟨by simp, by simp, Or.inl rfl⟩
  · rw [if_neg hln]
    exact ⟨by simp, by simp, Or.inl rfl⟩

/-- One dispatched readiness event preserves the loop invariant. -/
lemma dispatch_inv (s : LoopState) (tr : List Ev) (fd : Nat) (o : Oracle)
    (h : Inv s tr) :
    Inv (dispatch s fd o).1 (tr ++ (dispatch s fd o).2.1) := by
  by_cases h0 : fd = 0
  · unfold dispatch
    rw [if_pos h0]
    exact h.quietExt (by intro i; simp) (by intro i; simp)
  · unfold dispatch
    rw [if_neg h0]
    rcases hc : s.connections fd with _ | c
    · simp only []
      obtain ⟨hq1, hq2, hstate⟩ := loopAccept_shape s fd o
      rcases hstate with heq | ⟨nfd, sa, heq⟩
      · rw [heq]
        exact h.quietExt hq1 hq2
      · rw [heq]
        exact h.acceptStep rfl
          (fun f hf => insertConn_lookup_ne s _ f hf)
          (insertConn_lookup_self s _) rfl rfl rfl hq1 hq2
    · simp only []
      have hfd : c.fd = fd := h.keyFd fd c hc
      by_cases hop : c.opened = false
      · rw [if_pos hop]
        obtain ⟨c1, ka, wv, aw, h1fd, h1id, h1op, hq1, hq2, heq⟩ :=
          loopOpened_shape s c o
        rw [heq]
        have hka : ∀ i, Ev.onOpened i ∉ ka := fun i hm =>
          hq1 i (by simp [List.mem_append, hm])
        have hwv : ∀ i, Ev.onOpened i ∉ wv := fun i hm =>
          hq1 i (by simp [List.mem_append, hm])
        have haw : ∀ i, Ev.onOpened i ∉ aw := fun i hm =>
          hq1 i (by simp [List.mem_append, hm])
        have hka2 : ∀ i, Ev.react i ∉ ka := fun i hm =>
          hq2 i (by simp [List.mem_append, hm])
        have hwv2 : ∀ i, Ev.react i ∉ wv := fun i hm =>
          hq2 i (by simp [List.mem_append, hm])
        have haw2 : ∀ i, Ev.react i ∉ aw := fun i hm =>
          hq2 i (by simp [List.mem_append, hm])
        have hlc1 : ∀ c', (s.insertConn c1).connections c1.fd = Option.some c' →
            c'.id = c1.id ∧ c'.fd = c1.fd ∧ c'.opened = true := by
          intro c' hc'
          rw [insertConn_lookup_self] at hc'
          injection hc' with hc'
          rw [← hc']
          exact ⟨rfl, rfl, h1op⟩
        obtain ⟨hu, hhe1, hhe2⟩ := handleAction_upd (s.insertConn c1) c1 o true hlc1
        have hupd : ConnUpd s (handleAction (s.insertConn c1) c1 o).1 fd c.id true := by
          have base : ConnUpd s (s.insertConn c1) fd c.id true :=
            insertConn_connUpd s c1 fd c.id true (by rw [h1fd, hfd]) h1id h1op
          rw [h1fd, hfd, h1id] at hu
          exact base.trans hu
        have hrest : Ev.onOpened c.id ∉
            ka ++ wv ++ aw ++ (handleAction (s.insertConn c1) c1 o).2.1 := by
          simp only [List.mem_append]
          push_neg
          exact ⟨⟨⟨hka _, hwv _⟩, haw _⟩, hhe1 _⟩
        refine h.openStep hc hop hupd ?_ ?_ ?_
        · rw [List.count_cons_self, List.count_eq_zero.mpr hrest]
        · intro i hi hm
          rcases List.mem_cons.mp hm with hm | hm
          · injection hm with hm
            exact hi hm
          · simp only [List.mem_append] at hm
            rcases hm with ((hm | hm) | hm) | hm
            · exact hka i hm
            · exact hwv i hm
            · exact haw i hm
            · exact hhe1 i hm
        · intro i hm
          rcases List.mem_cons.mp hm with hm | hm
          · exact Ev.noConfusion hm
          · simp only [List.mem_append] at hm
            rcases hm with ((hm | hm) | hm) | hm
            · exact hka2 i hm
            · exact hwv2 i hm
            · exact haw2 i hm
            · exact hhe2 i hm
      · rw [if_neg hop]
        have hopt : c.opened = true := by
          revert hop
          cases c.opened <;> simp
        have hl : ∀ c', s.connections c.fd = Option.some c' →
            c'.id = c.id ∧ c'.fd = c.fd ∧ c'.opened = c.opened := by
          intro c' hc'
          rw [hfd, hc] at hc'
          injection hc' with hc'
          rw [← hc']
          exact ⟨rfl, rfl, rfl⟩
        by_cases hw : 0 < c.outBuf.Length
        · rw [if_pos hw]
          obtain ⟨hu, he1, he2⟩ := loopWrite_upd s c o hl
          rw [hfd] at hu
          exact h.connStep hc hu he1 (fun i hi => absurd hi (he2 i))
        · rw [if_neg hw]
          by_cases hre : o.readData.length = 0 ∨ o.readErr ≠ Option.none
          · by_cases heag : o.readErr = Option.some GError.eagain
            · rw [loopRead_eagain_eq s c o heag]
              exact h.quietExt (by intro i; simp) (by intro i; simp)
            · rw [loopRead_err_eq s c o hre heag]
              obtain ⟨hu, he1, he2⟩ := loopCloseConn_upd s c o.readErr o c.opened hl
              rw [hfd] at hu
              refine h.connStep hc hu ?_ ?_
              · intro i hm
                rcases List.mem_cons.mp hm with hm | hm
                · exact Ev.noConfusion hm
                · exact he1 i hm
              · intro i hm
                rcases List.mem_cons.mp hm with hm | hm
                · exact Ev.noConfusion hm
                · exact (he2 i hm).elim
          · push_neg at hre
            obtain ⟨hn, he⟩ := hre
            obtain ⟨c', wev, h2fd, h2id, h2op, h2act, h2in, h2wev, heq⟩ :=
              loopRead_success_shape s c o hn he
            rw [heq]
            have hlc' : ∀ d, (s.insertConn c').connections c'.fd = Option.some d →
                d.id = c'.id ∧ d.fd = c'.fd ∧ d.opened = c.opened := by
              intro d hd
              rw [insertConn_lookup_self] at hd
              injection hd with hd
              rw [← hd]
              exact ⟨rfl, rfl, h2op⟩
            obtain ⟨hu, he1, he2⟩ :=
              handleAction_upd (s.insertConn c') c' o c.opened hlc'
            have hupd : ConnUpd s (handleAction (s.insertConn c') c' o).1
                fd c.id c.opened := by
              have base : ConnUpd s (s.insertConn c') fd c.id c.opened :=
                insertConn_connUpd s c' fd c.id c.opened (by rw [h2fd, hfd]) h2id h2op
              rw [h2fd, hfd, h2id] at hu
              exact base.trans hu
            refine h.connStep hc hupd ?_ ?_
            · intro i hm
              rcases List.mem_cons.mp hm with hm | hm
              · exact Ev.noConfusion hm
              · rcases List.mem_cons.mp hm with hm | hm
                · exact Ev.noConfusion hm
                · rcases List.mem_append.mp hm with hm | hm
                  · obtain ⟨bs, hbs⟩ := h2wev _ hm
                    exact Ev.noConfusion hbs
                  · exact he1 i hm
            · intro i hm
              rcases List.mem_cons.mp hm with hm | hm
              · exact Ev.noConfusion hm
              · rcases List.mem_cons.mp hm with hm | hm
                · injection hm with hm
                  rw [hm]
                  exact (h.openedIff fd c hc).mp hopt
                · rcases List.mem_append.mp hm with hm | hm
                  · obtain ⟨bs, hbs⟩ := h2wev _ hm
                    exact Ev.noConfusion hbs
                  · exact (he2 i hm).elim

/-- A whole polling run preserves the loop invariant. -/
lemma runSteps_inv (steps : List (Nat × Oracle)) :
    ∀ (s : LoopState) (tr : List Ev), Inv s tr →
      Inv (runSteps s steps).1 (tr ++ (runSteps s steps).2) := by
  induction steps with
  | nil =>
    intro s tr h
    simpa [runSteps] using h
  | cons p rest ih =>
    intro s tr h
    rcases p with ⟨fd, o⟩
    unfold runSteps
    simp only []
    rcases hz : (dispatch s fd o).2.2 with _ | e
    · simp only []
      have h2 := ih (dispatch s fd o).1 (tr ++ (dispatch s fd o).2.1)
        (dispatch_inv s tr fd o h)
      rw [List.append_assoc] at h2
      exact h2
    · simp only []
      exact dispatch_inv s tr fd o h

/-- C1: over any run of the dispatch loop started with an empty connection
table, the open callback fires at most once per connection (ghost id),
every TCP data callback for a connection is strictly preceded in the trace
by that connection's open callback, and a connection is flagged opened
exactly when its open callback has fired (so the open callback has fired
for every connection that ever became ready, and it fired on the first
readiness, when the flag was still false — the dispatch routes a known
connection to `loopOpened` only while the flag is false, as
`dispatch_inv`'s `loopOpened` case shows, and `loopOpened` sets it). -/
theorem open_once_before_react (s0 : LoopState) (steps : List (Nat × Oracle))
    (h0 : ∀ f, s0.connections f = Option.none) :
    (∀ i, (runSteps s0 steps).2.count (Ev.onOpened i) ≤ 1) ∧
    (∀ i t1 t2, (runSteps s0 steps).2 = t1 ++ Ev.react i :: t2 →
      Ev.onOpened i ∈ t1) ∧
    (∀ f c, (runSteps s0 steps).1.connections f = Option.some c →
      (c.opened = true ↔ Ev.onOpened c.id ∈ (runSteps s0 steps).2)) := by
  have hinv0 : Inv s0 [] := by
    constructor
    · intro f c hcx
      rw [h0 f] at hcx
      exact Option.noConfusion hcx
    · intro f c hcx
      rw [h0 f] at hcx
      exact Option.noConfusion hcx
    · intro f g c d hcx
      rw [h0 f] at hcx
      exact Option.noConfusion hcx
    · intro f c hcx
      rw [h0 f] at hcx
      exact Option.noConfusion hcx
    · intro i hi
      exact List.not_mem_nil _
    · intro i
      simp
    · intro i t1 t2 hx
      cases t1 <;> simp at hx
  have hfin := runSteps_inv steps s0 [] hinv0
  rw [List.nil_append] at hfin
  exact ⟨hfin.onceOpen, hfin.reactOrdered, hfin.openedIff⟩

/-- Witness for C1 at a concrete initial state. -/
theorem open_once_before_react_witness :
    (∀ i, (runSteps loop0 []).2.count (Ev.onOpened i) ≤ 1) ∧
    (∀ i t1 t2, (runSteps loop0 []).2 = t1 ++ Ev.react i :: t2 →
      Ev.onOpened i ∈ t1) ∧
    (∀ f c, (runSteps loop0 []).1.connections f = Option.some c →
      (c.opened = true ↔ Ev.onOpened c.id ∈ (runSteps loop0 []).2)) :=
  open_once_before_react loop0 [] (fun _ => rfl)

end Gnet
